import Mathlib

/-!
Verification of the greeting CLI (`src/templates/example-interface.py`,
the `hello` utility) against its natural-language specification.

The script parses command-line tokens with `argparse`, then either prints a
fixed summary string, a fixed version string, or the result of
`args.format.format(name=args.name)`, optionally uppercased, and returns 0.
An uncaught exception from `str.format` terminates the process with exit
status 1 (a traceback on standard error); `argparse` reports bad usage on
standard error and exits 2.

The development shallowly embeds:
* Python `str.format` restricted to keyword substitution (the script's only
  use), as a character scanner `scanAux`;
* Python `str.upper` as a per-character full case mapping `pyUpperChar`,
  exact for all code points below U+0100;
* the `argparse` configuration of the script (one optional positional,
  `--format FMT`, `--uppercase`/`-u`, `--summary`, `--version`, plus the
  automatic `-h`/`--help`), as a token classifier and parse loop.
-/

/-- The kinds of exception Python `str.format` raises on the inputs the
script can feed it: `KeyError` (unknown keyword field), `IndexError`
(empty or numeric field with no positional arguments), `ValueError`
(malformed brace syntax). -/
inductive PyErr where
  | keyError
  | indexError
  | valueError
deriving DecidableEq, Repr

/-- Result of the `str.format` scanner: a successfully produced character
list, an exception, or a replacement-field form outside the modelled
subset of the format mini-language (non-empty format specs, conversions
other than `!s`, attribute/index field access).  The development never
asserts anything about `unmodelled` outcomes. -/
inductive FmtRes where
  | ok (out : List Char)
  | exn (e : PyErr)
  | unmodelled
deriving DecidableEq, Repr

/-- Prepend already-produced output characters to a scanner result;
errors pass through unchanged. -/
def fapp (v : List Char) : FmtRes → FmtRes
  | .ok out => .ok (v ++ out)
  | r => r

/-- Resolve a replacement-field name the way `str.format(name=<value>)`
does: an empty or all-digit field is a positional index (no positionals
were supplied, so `IndexError`); the keyword `name` yields the bound
value; any other keyword raises `KeyError`. -/
def resolveField (nm : List Char) (f : List Char) : Except PyErr (List Char) :=
  if f.all Char.isDigit then .error .indexError
  else if f = ['n', 'a', 'm', 'e'] then .ok nm
  else .error .keyError

/-- Scanner states for the `str.format` embedding: plain literal text,
just after `\x7b`, just after `\x7d`, inside a field name, just after
`!s`, and inside a format spec. -/
inductive SState where
  | lit
  | sawL
  | sawR
  | field (acc : List Char)
  | conv1 (f : List Char)
  | conv2s (f : List Char)
  | spec (f : List Char)
deriving DecidableEq, Repr

/-- One-character-at-a-time embedding of CPython's `str.format` markup
scanner, specialised to a single keyword argument `name` bound to `nm`.
`\x7b\x7b` and `\x7d\x7d` emit literal braces, a lone `\x7d` raises
`ValueError`, and a replacement field is field name, optional `!s`
conversion, optional (empty) format spec.  Field resolution and the
single-pass insertion of the value (never re-scanned) follow
`resolveField` and `fapp`. -/
def scanAux (nm : List Char) : SState → List Char → FmtRes
  | .lit, [] => .ok []
  | .lit, c :: cs =>
    if c = '\x7b' then scanAux nm .sawL cs
    else if c = '\x7d' then scanAux nm .sawR cs
    else fapp [c] (scanAux nm .lit cs)
  | .sawL, [] => .exn .valueError
  | .sawL, c :: cs =>
    if c = '\x7b' then fapp ['\x7b'] (scanAux nm .lit cs)
    else if c = '\x7d' then
      match resolveField nm [] with
      | .error e => .exn e
      | .ok v => fapp v (scanAux nm .lit cs)
    else if c = '!' then scanAux nm (.conv1 []) cs
    else if c = ':' then scanAux nm (.spec []) cs
    else if c = '.' ∨ c = '[' then .unmodelled
    else scanAux nm (.field [c]) cs
  | .sawR, [] => .exn .valueError
  | .sawR, c :: cs =>
    if c = '\x7d' then fapp ['\x7d'] (scanAux nm .lit cs)
    else .exn .valueError
  | .field _, [] => .exn .valueError
  | .field acc, c :: cs =>
    if c = '\x7d' then
      match resolveField nm acc with
      | .error e => .exn e
      | .ok v => fapp v (scanAux nm .lit cs)
    else if c = '!' then scanAux nm (.conv1 acc) cs
    else if c = ':' then scanAux nm (.spec acc) cs
    else if c = '\x7b' then .exn .valueError
    else if c = '.' ∨ c = '[' then .unmodelled
    else scanAux nm (.field (acc ++ [c])) cs
  | .conv1 _, [] => .exn .valueError
  | .conv1 f, c :: cs =>
    if c = 's' then scanAux nm (.conv2s f) cs else .unmodelled
  | .conv2s _, [] => .exn .valueError
  | .conv2s f, c :: cs =>
    if c = '\x7d' then
      match resolveField nm f with
      | .error e => .exn e
      | .ok v => fapp v (scanAux nm .lit cs)
    else if c = ':' then scanAux nm (.spec f) cs
    else .exn .valueError
  | .spec _, [] => .exn .valueError
  | .spec f, c :: cs =>
    if c = '\x7d' then
      match resolveField nm f with
      | .error e => .exn e
      | .ok v => fapp v (scanAux nm .lit cs)
    else .unmodelled

/-- `fmt.format(name=nm)` of line 28 of the script. -/
def pyFormat (fmt nm : String) : FmtRes :=
  scanAux nm.data .lit fmt.data

/-- Python `str.upper` on a single character: the full (possibly
multi-character) Unicode uppercase mapping.  Exact on the repertoire
described by `upperExact` — Basic Latin and Latin-1 (`ß` maps to `SS`,
`µ` to `Μ`, `ÿ` to `Ÿ`), Latin Extended-A (`ā` to `Ā`, `ı` to `I`, `ŉ`
to `ʼN`, `ſ` to `S`), modern Greek (`ω` to `Ω`, `π` to `Π`, `ς` to `Σ`,
`ΐ`/`ΰ` to three-character expansions) and the Cyrillic range
U+0400–U+045F.  Outside that repertoire the model returns the character
unchanged, and the uppercase theorem is asserted only under an
`upperExact` hypothesis. -/
def pyUpperChar (c : Char) : List Char :=
  let n := c.toNat
  if c = 'ß' then ['S', 'S']
  else if 'a' ≤ c ∧ c ≤ 'z' then [Char.ofNat (n - 32)]
  else if c = 'µ' then ['Μ']
  else if c = 'ÿ' then ['Ÿ']
  else if 'à' ≤ c ∧ c ≤ 'þ' ∧ c ≠ '÷' then [Char.ofNat (n - 32)]
  else if n = 0x131 then ['I']
  else if n = 0x149 then [Char.ofNat 0x2BC, 'N']
  else if n = 0x17F then ['S']
  else if 0x100 ≤ n ∧ n ≤ 0x137 ∧ n % 2 = 1 then [Char.ofNat (n - 1)]
  else if 0x139 ≤ n ∧ n ≤ 0x148 ∧ n % 2 = 0 then [Char.ofNat (n - 1)]
  else if 0x14A ≤ n ∧ n ≤ 0x177 ∧ n % 2 = 1 then [Char.ofNat (n - 1)]
  else if 0x179 ≤ n ∧ n ≤ 0x17E ∧ n % 2 = 0 then [Char.ofNat (n - 1)]
  else if n = 0x390 then [Char.ofNat 0x399, Char.ofNat 0x308, Char.ofNat 0x301]
  else if n = 0x3B0 then [Char.ofNat 0x3A5, Char.ofNat 0x308, Char.ofNat 0x301]
  else if n = 0x3AC then [Char.ofNat 0x386]
  else if 0x3AD ≤ n ∧ n ≤ 0x3AF then [Char.ofNat (n - 37)]
  else if n = 0x3C2 then [Char.ofNat 0x3A3]
  else if 0x3B1 ≤ n ∧ n ≤ 0x3CB then [Char.ofNat (n - 32)]
  else if n = 0x3CC then [Char.ofNat 0x38C]
  else if 0x3CD ≤ n ∧ n ≤ 0x3CE then [Char.ofNat (n - 63)]
  else if 0x430 ≤ n ∧ n ≤ 0x44F then [Char.ofNat (n - 32)]
  else if 0x450 ≤ n ∧ n ≤ 0x45F then [Char.ofNat (n - 80)]
  else [c]

/-- The repertoire on which `pyUpperChar` agrees exactly with Python
`str.upper`: every code point below U+0180 (Basic Latin, Latin-1,
Latin Extended-A), the modern Greek letters U+0386–U+03CF, and the
Cyrillic letters U+0400–U+045F. -/
def upperExact (c : Char) : Bool :=
  decide (c.toNat < 0x180 ∨ (0x386 ≤ c.toNat ∧ c.toNat ≤ 0x3CF) ∨
    (0x400 ≤ c.toNat ∧ c.toNat ≤ 0x45F))

/-- `greeting.upper()` of line 30 of the script: each character mapped
independently through `pyUpperChar`, concatenated. -/
def pyUpper (s : String) : String :=
  ⟨s.data.flatMap pyUpperChar⟩

/-- The `InvocationArgs` entity: the five values `argparse` produces for
the script (positional `name` defaulting to `"Friend"`, `--format`
defaulting to `"Hello, \x7bname\x7d!"`, and the three boolean flags). -/
structure Args where
  name : String
  format : String
  uppercase : Bool
  summary : Bool
  version : Bool
deriving DecidableEq, Repr

/-- The fixed string printed by the `--summary` branch (line 21). -/
def summaryText : String := "Displays a customizable greeting message (Python version)"

/-- The fixed string printed by the `--version` branch (line 24). -/
def versionText : String := "hello - rcForge Utility v0.4.1"

/-- What the process writes to standard error: nothing, the `argparse`
usage message, or a Python traceback from an uncaught exception. -/
inductive StdErrKind where
  | quiet
  | usage
  | traceback
deriving DecidableEq, Repr

/-- Observable outcome of one process run: the lines written to standard
output, the standard-error kind and the exit status; or `helpShown` for
the `-h`/`--help` path, which prints `argparse`-generated help text to
standard output (text depending on `sys.argv[0]`, hence not modelled) and
exits 0. -/
inductive Outcome where
  | lines (out : List String) (err : StdErrKind) (exit : Nat)
  | helpShown
deriving DecidableEq, Repr

/-- Exit status of an outcome; the help path exits 0. -/
def Outcome.exitCode : Outcome → Nat
  | .lines _ _ e => e
  | .helpShown => 0

/-- Lines 20–33 of the script plus the `sys.exit(main())` wrapper: the
summary branch short-circuits, then the version branch, then the greeting
is formatted, optionally uppercased and printed (exit 0); an exception
from `str.format` escapes `main`, so the interpreter prints a traceback
and exits 1.  `none` only when the format string leaves the modelled
subset of the format mini-language. -/
def runArgs (a : Args) : Option Outcome :=
  if a.summary then some (.lines [summaryText] .quiet 0)
  else if a.version then some (.lines [versionText] .quiet 0)
  else
    match pyFormat a.format a.name with
    | .ok g =>
      some (.lines [if a.uppercase then pyUpper ⟨g⟩ else ⟨g⟩] .quiet 0)
    | .exn _ => some (.lines [] .traceback 1)
    | .unmodelled => none

/-- Action the `argparse` layer takes for one token (before the `--`
separator): the separator itself, a positional, an unrecognized option
(collected and reported at the end of parsing), one of the flag setters,
`--format` with an inline `=` value or needing the next token, the help
action (prints help and exits 0 immediately), an immediate usage error,
or a token shape outside the modelled `argparse` subset. -/
inductive TokAct where
  | sep
  | pos
  | unknownOpt
  | setUpper
  | setSummary
  | setVersion
  | fmtWith
  | fmtNeedsVal
  | helpT
  | usageT
  | unmodT
deriving DecidableEq, Repr

/-- Split a character list at the first `=`, the way `argparse` splits
`--option=value`; returns the part before and, when a `=` is present,
the part after it. -/
def splitEqL : List Char → List Char × Option (List Char)
  | [] => ([], none)
  | c :: rest =>
    if c = '=' then ([], some rest)
    else
      let p := splitEqL rest
      (c :: p.1, p.2)

/-- Boolean list prefix test used for `argparse` long-option
abbreviation matching. -/
def isPrefixL : List Char → List Char → Bool
  | [], _ => true
  | _, [] => false
  | a :: as, b :: bs => a = b && isPrefixL as bs

/-- The long option names of the script's parser (without the leading
dashes): the four declared options plus the automatic `--help`. -/
def optBodies : List (List Char) :=
  ["format".data, "uppercase".data, "summary".data, "version".data, "help".data]

/-- The long options an abbreviated token body matches
(`allow_abbrev` is left at its default `True` in the script). -/
def longMatchesL (base : List Char) : List (List Char) :=
  optBodies.filter (fun o => isPrefixL base o)

/-- `argparse`'s negative-number shape `-\d+` or `-\d*\.\d+` (body after
the dash): the parser has no numeric-looking options, so such tokens are
treated as positionals. -/
def negBody (l : List Char) : Bool :=
  let p := l.span Char.isDigit
  match p.2 with
  | [] => !p.1.isEmpty
  | '.' :: frac => !frac.isEmpty && frac.all Char.isDigit
  | _ => false

/-- True when every character is ASCII: the modelled domain for
single-dash token processing (`argparse`'s negative-number regex `\d`
matches Unicode decimal digits, which the model does not enumerate). -/
def allAscii (l : List Char) : Bool :=
  l.all (fun c => c.toNat < 128)

/-- Classify a single-dash token `-c₁cs…`: chains of the no-argument
short flags `-u`/`-h` are processed left to right (`-h` anywhere in a
valid chain triggers the help action before `parse_args` returns); a
chain starting with a known flag but containing an invalid character is
an immediate `argparse` error (`ignored explicit argument`); an
unmatched token containing a space is a positional
(`_parse_optional`'s contains-space rule), otherwise it is an
unrecognized option. -/
def shortClassify (c1 : Char) (cs : List Char) : TokAct :=
  if c1 = 'u' ∨ c1 = 'h' then
    if cs.all (fun c => c = 'u' || c = 'h') then
      if c1 = 'h' ∨ cs.contains 'h' then .helpT else .setUpper
    else .usageT
  else if (c1 :: cs).contains ' ' then .pos
  else .unknownOpt

/-- Classify a double-dash token by its body (the characters after
`--`, known non-empty): split at `=`, abbreviation-match the base
against the five long options; `--help` exits with help, `--format`
takes a value, the boolean flags reject inline `=` values; an unmatched
token containing a space is a positional (`_parse_optional`'s
contains-space rule), otherwise an unrecognized option. -/
def longClassify (body : List Char) : TokAct :=
  let be := splitEqL body
  if be.1 = [] then .unmodT
  else
    match longMatchesL be.1 with
    | [] => if body.contains ' ' then .pos else .unknownOpt
    | [o] =>
      if o = "help".data then
        match be.2 with
        | none => .helpT
        | some _ => .usageT
      else if o = "format".data then
        match be.2 with
        | some _ => .fmtWith
        | none => .fmtNeedsVal
      else
        match be.2 with
        | some _ => .usageT
        | none =>
          if o = "uppercase".data then .setUpper
          else if o = "summary".data then .setSummary
          else .setVersion
    | _ => .usageT

/-- Token classification mirroring `argparse._parse_optional` for the
script's parser: `--` is the positional separator, `--…` tokens go to
long-option matching, single-dash tokens with a non-ASCII character are
outside the modelled subset (Unicode `\d` in the negative-number
regex), other `-…` tokens that do not look like negative numbers go to
short-flag processing, and everything else (including `-` alone,
negative numbers and the empty token) is a positional. -/
def classifyChars : List Char → TokAct
  | '-' :: rest =>
    match rest with
    | '-' :: rest2 => if rest2 = [] then .sep else longClassify rest2
    | c1 :: cs =>
      if !allAscii (c1 :: cs) then .unmodT
      else if negBody (c1 :: cs) then .pos
      else shortClassify c1 cs
    | [] => .pos
  | _ => .pos

/-- Classification of a command-line token. -/
def classify (t : String) : TokAct :=
  classifyChars t.data

/-- The inline value of a `--format=value`-shaped token (the characters
after the first `=`). -/
def eqArgOf (t : String) : String :=
  ⟨((splitEqL (t.data.drop 2)).2).getD []⟩

/-- Whether `argparse` refuses to consume the token as the value of
`--format` (`expected one argument`): exactly the tokens its optional
classifier does not treat as positionals (so dashed tokens other than
`-` alone and negative numbers, and the `--` separator). -/
def optionLike (t : String) : Bool :=
  decide (classify t ≠ TokAct.pos)

/-- Parser state threaded through the token loop: the `Args` being
built, whether the positional was already bound, whether an
unrecognized argument was collected (reported as a usage error once
parsing finishes), whether the `--` separator was passed, and whether a
bare `--format` is still waiting for its value. -/
structure PState where
  a : Args
  seenName : Bool
  extra : Bool
  afterSep : Bool
  wantFmtVal : Bool
deriving DecidableEq, Repr

/-- Bind a positional token: the first one becomes `name`, any further
one is an unrecognized argument. -/
def addPositional (st : PState) (t : String) : PState :=
  if st.seenName then { st with extra := true }
  else { st with a := { st.a with name := t }, seenName := true }

/-- Result of `parser.parse_args()`: an `Args` value, the usage-error
exit (status 2), the help exit (status 0), or a token shape outside the
modelled `argparse` subset. -/
inductive ParseResult where
  | ok (a : Args)
  | usageError
  | help
  | unmodelled
deriving DecidableEq, Repr

/-- End of token list: a `--format` still waiting for its value errors
(`expected one argument`), collected unrecognized arguments make
`parse_args` error out with usage text and exit 2; otherwise the built
`Args` value is returned. -/
def finish (st : PState) : ParseResult :=
  if st.wantFmtVal then .usageError
  else if st.extra then .usageError
  else .ok st.a

/-- Process one token, `argparse`-style: a pending `--format` takes the
token as its value unless the token is option-like (`expected one
argument`); after the `--` separator every token is positional;
otherwise dispatch on `classify` — the help action and immediate errors
abort parsing, unrecognized options are collected via `extra` and
reported at the end. -/
def step (st : PState) (t : String) : Except ParseResult PState :=
  if st.wantFmtVal then
    if optionLike t then .error .usageError
    else .ok { st with a := { st.a with format := t }, wantFmtVal := false }
  else if st.afterSep then .ok (addPositional st t)
  else
    match classify t with
    | .sep => .ok { st with afterSep := true }
    | .pos => .ok (addPositional st t)
    | .unknownOpt => .ok { st with extra := true }
    | .setUpper => .ok { st with a := { st.a with uppercase := true } }
    | .setSummary => .ok { st with a := { st.a with summary := true } }
    | .setVersion => .ok { st with a := { st.a with version := true } }
    | .fmtWith => .ok { st with a := { st.a with format := eqArgOf t } }
    | .fmtNeedsVal => .ok { st with wantFmtVal := true }
    | .helpT => .error .help
    | .usageT => .error .usageError
    | .unmodT => .error .unmodelled

/-- The `argparse` token loop: fold `step` over the tokens, stopping at
the first aborting action, and close with `finish`. -/
def parseLoop : PState → List String → ParseResult
  | st, [] => finish st
  | st, t :: rest =>
    match step st t with
    | .error r => r
    | .ok st' => parseLoop st' rest

/-- The script's parser invocation, lines 10–17: defaults
`name="Friend"`, `format="Hello, \x7bname\x7d!"`, flags `False`. -/
def parseArgs (toks : List String) : ParseResult :=
  parseLoop ⟨⟨"Friend", "Hello, \x7bname\x7d!", false, false, false⟩, false, false, false, false⟩ toks

/-- The whole process on a token list: parse, then run `main`'s branch
logic; a usage error writes to standard error and exits 2, the help
action prints help and exits 0. -/
def program (toks : List String) : Option Outcome :=
  match parseArgs toks with
  | .ok a => runArgs a
  | .usageError => some (.lines [] .usage 2)
  | .help => some .helpShown
  | .unmodelled => none

/-- The substitution operation as the specification words it: the format
string with every occurrence of the placeholder `\x7bname\x7d` replaced
by the name value, in a single left-to-right pass, the value inserted
verbatim and never re-expanded.  Stated from the spec's words for
comparison with the scanner `scanAux` taken from the source. -/
def specSubst (nm : List Char) : List Char → List Char
  | '\x7b' :: 'n' :: 'a' :: 'm' :: 'e' :: '\x7d' :: rest => nm ++ specSubst nm rest
  | c :: rest => c :: specSubst nm rest
  | [] => []

/-- Format strings whose braces occur only as complete
`\x7bname\x7d` placeholders: literal non-brace characters and the
placeholder itself. -/
inductive NameOnlyFmt : List Char → Prop
  | nil : NameOnlyFmt []
  | lit (c : Char) (rest : List Char) (h1 : c ≠ '\x7b') (h2 : c ≠ '\x7d')
      (h : NameOnlyFmt rest) : NameOnlyFmt (c :: rest)
  | field (rest : List Char) (h : NameOnlyFmt rest) :
      NameOnlyFmt ('\x7b' :: 'n' :: 'a' :: 'm' :: 'e' :: '\x7d' :: rest)

/-- Field-name characters that keep a replacement field inside the
modelled subset and inside the field state of the scanner. -/
def plainFieldChar (c : Char) : Prop :=
  c ≠ '\x7b' ∧ c ≠ '\x7d' ∧ c ≠ '!' ∧ c ≠ ':' ∧ c ≠ '.' ∧ c ≠ '['

/-- Big-step execution relation of the program, one constructor per
terminal branch of the source's decision tree (summary, version,
successful greeting, greeting aborted by a format exception, usage
error, help). -/
inductive Exec : List String → Outcome → Prop
  | summaryB (toks : List String) (a : Args) :
      parseArgs toks = .ok a → a.summary = true →
      Exec toks (.lines [summaryText] .quiet 0)
  | versionB (toks : List String) (a : Args) :
      parseArgs toks = .ok a → a.summary = false → a.version = true →
      Exec toks (.lines [versionText] .quiet 0)
  | greet (toks : List String) (a : Args) (g : List Char) :
      parseArgs toks = .ok a → a.summary = false → a.version = false →
      pyFormat a.format a.name = .ok g →
      Exec toks (.lines [if a.uppercase then pyUpper ⟨g⟩ else ⟨g⟩] .quiet 0)
  | greetExn (toks : List String) (a : Args) (e : PyErr) :
      parseArgs toks = .ok a → a.summary = false → a.version = false →
      pyFormat a.format a.name = .exn e →
      Exec toks (.lines [] .traceback 1)
  | usage (toks : List String) :
      parseArgs toks = .usageError → Exec toks (.lines [] .usage 2)
  | helpB (toks : List String) :
      parseArgs toks = .help → Exec toks .helpShown

/-- `fapp` with no produced characters is the identity. -/
lemma fapp_nil (r : FmtRes) : fapp [] r = r := by
  cases r <;> rfl

/-- Composing two `fapp` prefixes concatenates them. -/
lemma fapp_fapp (u v : List Char) (r : FmtRes) :
    fapp u (fapp v r) = fapp (u ++ v) r := by
  cases r <;> simp [fapp]

/-- Scanner step on a literal (non-brace) character. -/
lemma scanAux_lit_cons (nm : List Char) (c : Char) (cs : List Char)
    (h1 : c ≠ '\x7b') (h2 : c ≠ '\x7d') :
    scanAux nm .lit (c :: cs) = fapp [c] (scanAux nm .lit cs) := by
  simp [scanAux, h1, h2]

/-- Scanner steps through a complete `\x7bname\x7d` field: the bound
value is emitted and scanning resumes after the field, without
re-scanning the value. -/
lemma scanAux_name_field (nm cs : List Char) :
    scanAux nm .lit ('\x7b' :: 'n' :: 'a' :: 'm' :: 'e' :: '\x7d' :: cs) =
      fapp nm (scanAux nm .lit cs) := rfl

/-- `specSubst` on the empty format. -/
lemma specSubst_nil (nm : List Char) : specSubst nm [] = [] := rfl

/-- `specSubst` on a complete placeholder. -/
lemma specSubst_name (nm rest : List Char) :
    specSubst nm ('\x7b' :: 'n' :: 'a' :: 'm' :: 'e' :: '\x7d' :: rest) =
      nm ++ specSubst nm rest := rfl

/-- `specSubst` on a character that does not open a placeholder. -/
lemma specSubst_cons (nm : List Char) (c : Char) (rest : List Char)
    (h : c ≠ '\x7b') :
    specSubst nm (c :: rest) = c :: specSubst nm rest := by
  rw [specSubst.eq_def]
  split <;> simp_all

/-- The scanner agrees with the specification's substitution on any
prefix whose braces occur only as `\x7bname\x7d` placeholders. -/
lemma scan_nameOnly_append {p : List Char} (hp : NameOnlyFmt p)
    (nm rest : List Char) :
    scanAux nm .lit (p ++ rest) = fapp (specSubst nm p) (scanAux nm .lit rest) := by
  induction hp with
  | nil => rw [List.nil_append, specSubst_nil, fapp_nil]
  | lit c rest' h1 h2 _ ih =>
    rw [List.cons_append, scanAux_lit_cons nm c _ h1 h2, ih,
      specSubst_cons nm c rest' h1, fapp_fapp]
    rfl
  | field rest' _ ih =>
    simp only [List.cons_append]
    rw [scanAux_name_field, ih, specSubst_name, fapp_fapp]

/-- On a format whose braces occur only as `\x7bname\x7d` placeholders,
the scanner from the source computes exactly the specification's
single-pass substitution. -/
lemma scan_nameOnly {p : List Char} (hp : NameOnlyFmt p) (nm : List Char) :
    scanAux nm .lit p = .ok (specSubst nm p) := by
  have h := scan_nameOnly_append hp nm []
  simpa [scanAux, fapp] using h

/-- A format with no brace characters at all scans to itself. -/
lemma scan_noBrace (nm : List Char) :
    ∀ l : List Char, (∀ c ∈ l, c ≠ '\x7b' ∧ c ≠ '\x7d') →
      scanAux nm .lit l = .ok l := by
  intro l h
  induction l with
  | nil => rfl
  | cons c cs ih =>
    have hc := h c (by simp)
    rw [scanAux_lit_cons nm c cs hc.1 hc.2,
      ih (fun c' hc' => h c' (by simp [hc']))]
    rfl

/-- Feeding plain field-name characters accumulates them until the
closing brace, where the field resolves. -/
lemma scan_field_feed (nm rest : List Char) :
    ∀ f acc : List Char, (∀ c ∈ f, plainFieldChar c) →
      scanAux nm (.field acc) (f ++ '\x7d' :: rest) =
        (match resolveField nm (acc ++ f) with
         | .error e => .exn e
         | .ok v => fapp v (scanAux nm .lit rest)) := by
  intro f
  induction f with
  | nil => intro acc _; simp [scanAux]
  | cons c f' ih =>
    intro acc h
    obtain ⟨h1, h2, h3, h4, h5, h6⟩ := h c (by simp)
    rw [List.cons_append,
      show scanAux nm (.field acc) (c :: (f' ++ '\x7d' :: rest)) =
          scanAux nm (.field (acc ++ [c])) (f' ++ '\x7d' :: rest) from by
        simp [scanAux, h1, h2, h3, h4, h5, h6],
      ih (acc ++ [c]) (fun c' hc' => h c' (by simp [hc']))]
    simp

/-- A field name other than `name` resolves to an exception. -/
lemma resolveField_bad (nm f : List Char) (h : f ≠ ['n', 'a', 'm', 'e']) :
    ∃ e, resolveField nm f = .error e := by
  unfold resolveField
  by_cases hd : f.all Char.isDigit
  · exact ⟨.indexError, by simp [hd]⟩
  · exact ⟨.keyError, by simp [hd, h]⟩

/-- Scanning a replacement field whose name is not `name` raises. -/
lemma scan_badfield (nm rest f : List Char)
    (hf : ∀ c ∈ f, plainFieldChar c) (hne : f ≠ ['n', 'a', 'm', 'e']) :
    ∃ e, scanAux nm .lit ('\x7b' :: (f ++ '\x7d' :: rest)) = .exn e := by
  obtain ⟨e, he⟩ := resolveField_bad nm f hne
  cases f with
  | nil =>
    refine ⟨e, ?_⟩
    have hstep : scanAux nm .lit ('\x7b' :: ([] ++ '\x7d' :: rest)) =
        (match resolveField nm [] with
         | .error e => .exn e
         | .ok v => fapp v (scanAux nm .lit rest)) := rfl
    rw [hstep, he]
  | cons c f' =>
    obtain ⟨h1, h2, h3, h4, h5, h6⟩ := hf c (by simp)
    refine ⟨e, ?_⟩
    rw [List.cons_append,
      show scanAux nm .lit ('\x7b' :: c :: (f' ++ '\x7d' :: rest)) =
          scanAux nm (.field [c]) (f' ++ '\x7d' :: rest) from by
        simp [scanAux, h1, h2, h3, h4, h5, h6],
      scan_field_feed nm rest f' [c] (fun c' hc' => hf c' (by simp [hc']))]
    simp [he]

/-- A trailing unmatched `\x7b` after a well-formed prefix raises
`ValueError`. -/
lemma scan_unmatched {p : List Char} (hp : NameOnlyFmt p) (nm : List Char) :
    scanAux nm .lit (p ++ ['\x7b']) = .exn .valueError := by
  rw [scan_nameOnly_append hp nm ['\x7b']]
  rfl

/-- Binding a positional keeps the unrecognized-argument flag set. -/
lemma addPositional_extra (st : PState) (t : String) (hx : st.extra = true) :
    (addPositional st t).extra = true := by
  unfold addPositional
  split <;> simp [hx]

/-- Binding a positional does not change the separator mode. -/
lemma addPositional_afterSep (st : PState) (t : String) :
    (addPositional st t).afterSep = st.afterSep := by
  unfold addPositional
  split <;> rfl

/-- Once an unrecognized argument has been collected, parsing a token
list free of separator, help and unmodelled tokens always ends in the
usage error. -/
lemma parseLoop_extra (toks : List String) :
    ∀ st : PState,
      (∀ t ∈ toks, classify t ≠ .sep ∧ classify t ≠ .helpT ∧ classify t ≠ .unmodT) →
      st.extra = true → parseLoop st toks = .usageError := by
  induction toks with
  | nil =>
    intro st _ hx
    simp [parseLoop, finish, hx]
  | cons t rest ih =>
    intro st hall hx
    have ht := hall t (List.mem_cons_self t rest)
    have hrest : ∀ t' ∈ rest,
        classify t' ≠ .sep ∧ classify t' ≠ .helpT ∧ classify t' ≠ .unmodT :=
      fun t' h' => hall t' (List.mem_cons_of_mem t h')
    by_cases hw : st.wantFmtVal = true
    · by_cases ho : optionLike t = true
      · have hstep : step st t = .error .usageError := by simp [step, hw, ho]
        simp [parseLoop, hstep]
      · have hstep : step st t =
            .ok { st with a := { st.a with format := t }, wantFmtVal := false } := by
          simp [step, hw, ho]
        simp only [parseLoop, hstep]
        exact ih _ hrest hx
    · by_cases hsp : st.afterSep = true
      · have hstep : step st t = .ok (addPositional st t) := by simp [step, hw, hsp]
        simp only [parseLoop, hstep]
        exact ih _ hrest (addPositional_extra st t hx)
      · cases hc : classify t with
        | sep => exact absurd hc ht.1
        | helpT => exact absurd hc ht.2.1
        | unmodT => exact absurd hc ht.2.2
        | usageT =>
          have hstep : step st t = .error .usageError := by simp [step, hw, hsp, hc]
          simp [parseLoop, hstep]
        | pos =>
          have hstep : step st t = .ok (addPositional st t) := by simp [step, hw, hsp, hc]
          simp only [parseLoop, hstep]
          exact ih _ hrest (addPositional_extra st t hx)
        | unknownOpt =>
          have hstep : step st t = .ok { st with extra := true } := by simp [step, hw, hsp, hc]
          simp only [parseLoop, hstep]
          exact ih _ hrest rfl
        | setUpper =>
          have hstep : step st t = .ok { st with a := { st.a with uppercase := true } } := by
            simp [step, hw, hsp, hc]
          simp only [parseLoop, hstep]
          exact ih _ hrest hx
        | setSummary =>
          have hstep : step st t = .ok { st with a := { st.a with summary := true } } := by
            simp [step, hw, hsp, hc]
          simp only [parseLoop, hstep]
          exact ih _ hrest hx
        | setVersion =>
          have hstep : step st t = .ok { st with a := { st.a with version := true } } := by
            simp [step, hw, hsp, hc]
          simp only [parseLoop, hstep]
          exact ih _ hrest hx
        | fmtWith =>
          have hstep : step st t = .ok { st with a := { st.a with format := eqArgOf t } } := by
            simp [step, hw, hsp, hc]
          simp only [parseLoop, hstep]
          exact ih _ hrest hx
        | fmtNeedsVal =>
          have hstep : step st t = .ok { st with wantFmtVal := true } := by
            simp [step, hw, hsp, hc]
          simp only [parseLoop, hstep]
          exact ih _ hrest hx

/-- A token list free of separator, help and unmodelled tokens that
contains an unrecognized option parses to the usage error, from any
state still before the separator. -/
lemma parseLoop_unknown (toks : List String) :
    ∀ st : PState, st.afterSep = false →
      (∀ t ∈ toks, classify t ≠ .sep ∧ classify t ≠ .helpT ∧ classify t ≠ .unmodT) →
      (∃ t ∈ toks, classify t = .unknownOpt) →
      parseLoop st toks = .usageError := by
  induction toks with
  | nil =>
    intro st _ _ hex
    obtain ⟨t, ht, _⟩ := hex
    exact absurd ht (List.not_mem_nil t)
  | cons t rest ih =>
    intro st hsp hall hex
    have ht := hall t (List.mem_cons_self t rest)
    have hrest : ∀ t' ∈ rest,
        classify t' ≠ .sep ∧ classify t' ≠ .helpT ∧ classify t' ≠ .unmodT :=
      fun t' h' => hall t' (List.mem_cons_of_mem t h')
    obtain ⟨t', ht', hct'⟩ := hex
    by_cases hw : st.wantFmtVal = true
    · by_cases ho : optionLike t = true
      · have hstep : step st t = .error .usageError := by simp [step, hw, ho]
        simp [parseLoop, hstep]
      · have hstep : step st t =
            .ok { st with a := { st.a with format := t }, wantFmtVal := false } := by
          simp [step, hw, ho]
        simp only [parseLoop, hstep]
        rcases List.mem_cons.mp ht' with rfl | htl
        · exact absurd (by simp [optionLike, hct']) ho
        · exact ih _ hsp hrest ⟨t', htl, hct'⟩
    · have hspf : st.afterSep = true ↔ False := by simp [hsp]
      rcases List.mem_cons.mp ht' with rfl | htl
      · have hstep : step st t' = .ok { st with extra := true } := by
          simp [step, hw, hsp, hct']
        simp only [parseLoop, hstep]
        exact parseLoop_extra rest _ hrest rfl
      · cases hc : classify t with
        | sep => exact absurd hc ht.1
        | helpT => exact absurd hc ht.2.1
        | unmodT => exact absurd hc ht.2.2
        | usageT =>
          have hstep : step st t = .error .usageError := by simp [step, hw, hsp, hc]
          simp [parseLoop, hstep]
        | unknownOpt =>
          have hstep : step st t = .ok { st with extra := true } := by simp [step, hw, hsp, hc]
          simp only [parseLoop, hstep]
          exact parseLoop_extra rest _ hrest rfl
        | pos =>
          have hstep : step st t = .ok (addPositional st t) := by simp [step, hw, hsp, hc]
          simp only [parseLoop, hstep]
          exact ih _ (by rw [addPositional_afterSep]; exact hsp) hrest ⟨t', htl, hct'⟩
        | setUpper =>
          have hstep : step st t = .ok { st with a := { st.a with uppercase := true } } := by
            simp [step, hw, hsp, hc]
          simp only [parseLoop, hstep]
          exact ih _ hsp hrest ⟨t', htl, hct'⟩
        | setSummary =>
          have hstep : step st t = .ok { st with a := { st.a with summary := true } } := by
            simp [step, hw, hsp, hc]
          simp only [parseLoop, hstep]
          exact ih _ hsp hrest ⟨t', htl, hct'⟩
        | setVersion =>
          have hstep : step st t = .ok { st with a := { st.a with version := true } } := by
            simp [step, hw, hsp, hc]
          simp only [parseLoop, hstep]
          exact ih _ hsp hrest ⟨t', htl, hct'⟩
        | fmtWith =>
          have hstep : step st t = .ok { st with a := { st.a with format := eqArgOf t } } := by
            simp [step, hw, hsp, hc]
          simp only [parseLoop, hstep]
          exact ih _ hsp hrest ⟨t', htl, hct'⟩
        | fmtNeedsVal =>
          have hstep : step st t = .ok { st with wantFmtVal := true } := by
            simp [step, hw, hsp, hc]
          simp only [parseLoop, hstep]
          exact ih _ hsp hrest ⟨t', htl, hct'⟩

/-- A token list free of separator, help and unmodelled tokens whose
final token is a bare `--format` parses to the usage error (`expected
one argument`), from any state still before the separator. -/
lemma parseLoop_trailing_format (init : List String) :
    ∀ st : PState, st.afterSep = false →
      (∀ t ∈ init, classify t ≠ .sep ∧ classify t ≠ .helpT ∧ classify t ≠ .unmodT) →
      parseLoop st (init ++ ["--format"]) = .usageError := by
  induction init with
  | nil =>
    intro st hsp _
    by_cases hw : st.wantFmtVal = true
    · have hstep : step st "--format" = .error .usageError := by
        have ho : optionLike "--format" = true := by decide
        simp [step, hw, ho]
      simp [parseLoop, hstep]
    · have hc : classify "--format" = TokAct.fmtNeedsVal := by decide
      have hstep : step st "--format" = .ok { st with wantFmtVal := true } := by
        simp [step, hw, hsp, hc]
      simp only [List.nil_append, parseLoop, hstep]
      simp [finish]
  | cons t rest ih =>
    intro st hsp hall
    have ht := hall t (List.mem_cons_self t rest)
    have hrest : ∀ t' ∈ rest,
        classify t' ≠ .sep ∧ classify t' ≠ .helpT ∧ classify t' ≠ .unmodT :=
      fun t' h' => hall t' (List.mem_cons_of_mem t h')
    rw [List.cons_append]
    by_cases hw : st.wantFmtVal = true
    · by_cases ho : optionLike t = true
      · have hstep : step st t = .error .usageError := by simp [step, hw, ho]
        simp [parseLoop, hstep]
      · have hstep : step st t =
            .ok { st with a := { st.a with format := t }, wantFmtVal := false } := by
          simp [step, hw, ho]
        simp only [parseLoop, hstep]
        exact ih _ hsp hrest
    · cases hc : classify t with
      | sep => exact absurd hc ht.1
      | helpT => exact absurd hc ht.2.1
      | unmodT => exact absurd hc ht.2.2
      | usageT =>
        have hstep : step st t = .error .usageError := by simp [step, hw, hsp, hc]
        simp [parseLoop, hstep]
      | unknownOpt =>
        have hstep : step st t = .ok { st with extra := true } := by simp [step, hw, hsp, hc]
        simp only [parseLoop, hstep]
        exact ih _ hsp hrest
      | pos =>
        have hstep : step st t = .ok (addPositional st t) := by simp [step, hw, hsp, hc]
        simp only [parseLoop, hstep]
        exact ih _ (by rw [addPositional_afterSep]; exact hsp) hrest
      | setUpper =>
        have hstep : step st t = .ok { st with a := { st.a with uppercase := true } } := by
          simp [step, hw, hsp, hc]
        simp only [parseLoop, hstep]
        exact ih _ hsp hrest
      | setSummary =>
        have hstep : step st t = .ok { st with a := { st.a with summary := true } } := by
          simp [step, hw, hsp, hc]
        simp only [parseLoop, hstep]
        exact ih _ hsp hrest
      | setVersion =>
        have hstep : step st t = .ok { st with a := { st.a with version := true } } := by
          simp [step, hw, hsp, hc]
        simp only [parseLoop, hstep]
        exact ih _ hsp hrest
      | fmtWith =>
        have hstep : step st t = .ok { st with a := { st.a with format := eqArgOf t } } := by
          simp [step, hw, hsp, hc]
        simp only [parseLoop, hstep]
        exact ih _ hsp hrest
      | fmtNeedsVal =>
        have hstep : step st t = .ok { st with wantFmtVal := true } := by
          simp [step, hw, hsp, hc]
        simp only [parseLoop, hstep]
        exact ih _ hsp hrest

instance (c : Char) : Decidable (plainFieldChar c) := by
  unfold plainFieldChar
  infer_instance

/-- C1 (amended).  For every name string and every format string whose
braces occur only as `\x7bname\x7d` placeholders, the greeting branch
prints the format string with every occurrence of the placeholder
replaced by the name value in a single substitution pass (the value
inserted verbatim, never re-expanded — `specSubst` states the spec's
wording) and returns exit status 0; with all defaults it prints
"Hello, Friend!" and with positional `World` it prints "Hello, World!".
The original claim quantified over all format strings, which fails on
brace escapes such as `\x7b\x7b` (see the counterexample). -/
theorem C1_greeting_substitution :
    (∀ nm fmt : String, NameOnlyFmt fmt.data →
      runArgs ⟨nm, fmt, false, false, false⟩ =
        some (.lines [⟨specSubst nm.data fmt.data⟩] .quiet 0)) ∧
    program [] = some (.lines ["Hello, Friend!"] .quiet 0) ∧
    program ["World"] = some (.lines ["Hello, World!"] .quiet 0) := by
  refine ⟨?_, by decide, by decide⟩
  intro nm fmt h
  have hs : pyFormat fmt nm = .ok (specSubst nm.data fmt.data) := scan_nameOnly h nm.data
  simp [runArgs, hs]

/-- C1 counterexample.  For the format `\x7b\x7b` the substitution
succeeds, the format contains no `\x7bname\x7d` placeholder (the
spec-worded substitution leaves it unchanged), yet the program prints
`\x7b`, not the format string: Python collapses the brace escape. -/
theorem C1_counterexample :
    runArgs ⟨"Friend", "\x7b\x7b", false, false, false⟩ =
      some (.lines ["\x7b"] .quiet 0) ∧
    specSubst "Friend".data "\x7b\x7b".data = "\x7b\x7b".data ∧
    ("\x7b" : String) ≠ "\x7b\x7b" := by decide

/-- C1 witness: the amended theorem applied to name `Bob` and format
`\x7bname\x7d`. -/
theorem C1_witness :
    runArgs ⟨"Bob", "\x7bname\x7d", false, false, false⟩ =
      some (.lines ["Bob"] .quiet 0) := by
  have hfmt : NameOnlyFmt ("\x7bname\x7d" : String).data := by
    have h : ("\x7bname\x7d" : String).data =
        ['\x7b', 'n', 'a', 'm', 'e', '\x7d'] := rfl
    rw [h]
    exact NameOnlyFmt.field [] NameOnlyFmt.nil
  have h := C1_greeting_substitution.1 "Bob" "\x7bname\x7d" hfmt
  rw [h]
  decide

/-- C2.  If the summary flag is set the program prints exactly the
fixed summary string and returns exit status 0, regardless of every
other field of `InvocationArgs` (and, at token level, of the other
flags and positional supplied alongside it). -/
theorem C2_summary_short_circuits :
    (∀ a : Args, a.summary = true →
      runArgs a = some (.lines [summaryText] .quiet 0)) ∧
    program ["World", "--summary", "--version", "-u", "--format", "\x7boops"] =
      some (.lines [summaryText] .quiet 0) := by
  refine ⟨?_, by decide⟩
  intro a h
  simp [runArgs, h]

/-- C2 witness: summary set together with version, uppercase, a custom
name and a malformed format still prints the summary line. -/
theorem C2_witness :
    runArgs ⟨"World", "\x7bbroken", true, true, true⟩ =
      some (.lines [summaryText] .quiet 0) :=
  C2_summary_short_circuits.1 ⟨"World", "\x7bbroken", true, true, true⟩ rfl

/-- C3.  If the version flag is set and the summary flag is not, the
program prints exactly the fixed version string and returns exit status
0; name, format and uppercase have no effect. -/
theorem C3_version_fixed_output :
    (∀ a : Args, a.summary = false → a.version = true →
      runArgs a = some (.lines [versionText] .quiet 0)) ∧
    program ["World", "--version", "-u", "--format", "\x7boops"] =
      some (.lines [versionText] .quiet 0) := by
  refine ⟨?_, by decide⟩
  intro a h1 h2
  simp [runArgs, h1, h2]

/-- C3 witness: version set with uppercase, a custom name and a
malformed format still prints the version line. -/
theorem C3_witness :
    runArgs ⟨"Zed", "\x7bbad", true, false, true⟩ =
      some (.lines [versionText] .quiet 0) :=
  C3_version_fixed_output.1 ⟨"Zed", "\x7bbad", true, false, true⟩ rfl rfl

/-- C4 (amended).  In the greeting branch with the uppercase flag set,
the printed string is the formatted greeting with each character mapped
independently through Python's full uppercase mapping; the mapping may
expand a character to several (e.g. `ß` to `SS`), so the string length
is not always preserved — the original claim's length-preservation
fails (see the counterexample).  Asserted for greetings within the
repertoire where the embedded mapping is exact (`upperExact`: code
points below U+0180, modern Greek, Cyrillic).  `hello World
--uppercase` prints "HELLO, WORLD!". -/
theorem C4_uppercase_full_casemap :
    (∀ (a : Args) (g : List Char), a.summary = false → a.version = false →
      a.uppercase = true → pyFormat a.format a.name = .ok g →
      (∀ c ∈ g, upperExact c = true) →
      runArgs a = some (.lines [pyUpper ⟨g⟩] .quiet 0) ∧
      (pyUpper ⟨g⟩).data = g.flatMap pyUpperChar) ∧
    program ["World", "--uppercase"] = some (.lines ["HELLO, WORLD!"] .quiet 0) := by
  refine ⟨?_, by decide⟩
  intro a g h1 h2 h3 h4 _
  exact ⟨by simp [runArgs, h1, h2, h3, h4], rfl⟩

/-- C4 counterexample.  With name `ß` the formatted greeting has 9
characters but the uppercased output "HELLO, SS!" has 10: `str.upper`
is not length-preserving simple case folding. -/
theorem C4_counterexample :
    pyFormat "Hello, \x7bname\x7d!" "ß" = .ok "Hello, ß!".data ∧
    runArgs ⟨"ß", "Hello, \x7bname\x7d!", true, false, false⟩ =
      some (.lines ["HELLO, SS!"] .quiet 0) ∧
    "HELLO, SS!".length ≠ "Hello, ß!".length := by decide

/-- C4 witness: the amended theorem applied to `hello World
--uppercase`'s arguments. -/
theorem C4_witness :
    runArgs ⟨"World", "Hello, \x7bname\x7d!", true, false, false⟩ =
      some (.lines ["HELLO, WORLD!"] .quiet 0) := by
  have h := (C4_uppercase_full_casemap.1
    ⟨"World", "Hello, \x7bname\x7d!", true, false, false⟩
    "Hello, World!".data rfl rfl rfl (by decide) (by decide)).1
  rw [h]
  decide

/-- C5 (amended).  For every name string and every format string whose
braces occur only as `\x7bname\x7d` placeholders (in particular the
default format), the substitution step succeeds for any name value, and
the greeting branch prints and exits 0.  The original claim quantified
over all parser-accepted format strings, but a format such as
`\x7bother\x7d` is accepted by the parser and makes the substitution
raise (see the counterexample), so malformed arguments are not the only
failure mode. -/
theorem C5_substitution_total_on_name_fields :
    ∀ (nm fmt : String) (up : Bool), NameOnlyFmt fmt.data →
      ∃ g : List Char, pyFormat fmt nm = .ok g ∧
        runArgs ⟨nm, fmt, up, false, false⟩ =
          some (.lines [if up then pyUpper ⟨g⟩ else ⟨g⟩] .quiet 0) := by
  intro nm fmt up h
  have hs : pyFormat fmt nm = .ok (specSubst nm.data fmt.data) := scan_nameOnly h nm.data
  exact ⟨specSubst nm.data fmt.data, hs, by simp [runArgs, hs]⟩

/-- C5 counterexample.  The parser-accepted format `\x7bother\x7d`
makes the substitution step raise `KeyError`; the process exits 1 with
a traceback. -/
theorem C5_counterexample :
    pyFormat "\x7bother\x7d" "Friend" = .exn .keyError ∧
    runArgs ⟨"Friend", "\x7bother\x7d", false, false, false⟩ =
      some (.lines [] .traceback 1) := by decide

/-- C5 witness: the amended theorem applied to name `Pat` and format
`\x7bname\x7d`. -/
theorem C5_witness :
    ∃ g : List Char, pyFormat "\x7bname\x7d" "Pat" = .ok g ∧
      runArgs ⟨"Pat", "\x7bname\x7d", false, false, false⟩ =
        some (.lines [if false then pyUpper ⟨g⟩ else ⟨g⟩] .quiet 0) := by
  apply C5_substitution_total_on_name_fields "Pat" "\x7bname\x7d" false
  have h : ("\x7bname\x7d" : String).data =
      ['\x7b', 'n', 'a', 'm', 'e', '\x7d'] := rfl
  rw [h]
  exact NameOnlyFmt.field [] NameOnlyFmt.nil

/-- C6 (amended).  For every format string containing no brace
character at all, the greeting branch renders the format literally, for
every name value.  The original claim covered every format without a
`\x7bname\x7d` placeholder, but such formats can still contain braces:
`\x7bwho\x7d` raises instead of rendering literally (see the
counterexample). -/
theorem C6_braceless_format_literal :
    ∀ (nm fmt : String) (up : Bool),
      (∀ c ∈ fmt.data, c ≠ '\x7b' ∧ c ≠ '\x7d') →
      pyFormat fmt nm = .ok fmt.data ∧
      runArgs ⟨nm, fmt, up, false, false⟩ =
        some (.lines [if up then pyUpper fmt else fmt] .quiet 0) := by
  intro nm fmt up h
  have hs : pyFormat fmt nm = .ok fmt.data := scan_noBrace nm.data fmt.data h
  exact ⟨hs, by simp [runArgs, hs]⟩

/-- C6 counterexample.  The format `\x7bwho\x7d` contains no
`\x7bname\x7d` placeholder (the spec-worded substitution leaves it
unchanged), yet the greeting branch does not render it literally: it
raises and the process exits 1. -/
theorem C6_counterexample :
    runArgs ⟨"Friend", "\x7bwho\x7d", false, false, false⟩ =
      some (.lines [] .traceback 1) ∧
    specSubst "Friend".data "\x7bwho\x7d".data = "\x7bwho\x7d".data ∧
    Outcome.lines ([] : List String) StdErrKind.traceback 1 ≠
      .lines ["\x7bwho\x7d"] .quiet 0 := by decide

/-- C6 witness: the amended theorem applied to the braceless format
`Hi all`. -/
theorem C6_witness :
    pyFormat "Hi all" "Zoe" = .ok "Hi all".data ∧
    runArgs ⟨"Zoe", "Hi all", false, false, false⟩ =
      some (.lines ["Hi all"] .quiet 0) := by
  have h := C6_braceless_format_literal "Zoe" "Hi all" false (by decide)
  simpa using h

/-- C7 (amended).  A token list containing a token the parser treats as
an unrecognized option — with no help flag, no `--` separator and no
token outside the modelled `argparse` subset anywhere in the list —
makes the program print a usage error to standard error, print nothing
to standard output, and exit 2; likewise when the final token is a bare
`--format` missing its value.  The original claim said this for every
list containing an unknown flag, but a help flag alongside overrides it
with the help exit 0 (see the counterexample). -/
theorem C7_unknown_flag_usage_error :
    (∀ toks : List String,
      (∀ t ∈ toks, classify t ≠ .sep ∧ classify t ≠ .helpT ∧ classify t ≠ .unmodT) →
      (∃ t ∈ toks, classify t = .unknownOpt) →
      program toks = some (.lines [] .usage 2)) ∧
    (∀ init : List String,
      (∀ t ∈ init, classify t ≠ .sep ∧ classify t ≠ .helpT ∧ classify t ≠ .unmodT) →
      program (init ++ ["--format"]) = some (.lines [] .usage 2)) := by
  constructor
  · intro toks hall hex
    have hp : parseArgs toks = .usageError :=
      parseLoop_unknown toks _ rfl hall hex
    simp [program, hp]
  · intro init hall
    have hp : parseArgs (init ++ ["--format"]) = .usageError :=
      parseLoop_trailing_format init _ rfl hall
    simp [program, hp]

/-- C7 counterexample.  The list `--bogus-flag -h` contains an unknown
flag, yet `argparse` collects it and reaches the help action first: the
program prints help and exits 0, not a usage error with a non-zero
status. -/
theorem C7_counterexample :
    program ["--bogus-flag", "-h"] = some .helpShown ∧
    classify "--bogus-flag" = .unknownOpt ∧
    Outcome.exitCode .helpShown = 0 := by decide

/-- C7 witness: the amended theorem applied to the single unknown flag
`--bogus-flag`. -/
theorem C7_witness :
    program ["--bogus-flag"] = some (.lines [] .usage 2) :=
  C7_unknown_flag_usage_error.1 ["--bogus-flag"] (by decide) (by decide)

/-- C8 (amended).  For every token list the parser accepts into an
`InvocationArgs`, the run either writes exactly one line to standard
output and exits 0 (when the chosen branch succeeds), or — when the
format substitution raises — writes nothing to standard output and
exits 1 with a traceback.  The original claim promised one line and
exit 0 for every accepted list; the accepted format `\x7bmissing\x7d`
refutes that (see the counterexample). -/
theorem C8_accepted_single_line_or_traceback :
    ∀ (toks : List String) (a : Args) (r : Outcome),
      parseArgs toks = .ok a → program toks = some r →
      (∃ s, r = .lines [s] .quiet 0) ∨ r = .lines [] .traceback 1 := by
  intro toks a r hp hr
  simp only [program, hp] at hr
  unfold runArgs at hr
  by_cases h1 : a.summary = true
  · simp [h1] at hr
    exact Or.inl ⟨summaryText, hr.symm⟩
  · by_cases h2 : a.version = true
    · simp [h1, h2] at hr
      exact Or.inl ⟨versionText, hr.symm⟩
    · cases hf : pyFormat a.format a.name with
      | ok g =>
        simp [h1, h2, hf] at hr
        exact Or.inl ⟨if a.uppercase then pyUpper ⟨g⟩ else ⟨g⟩, hr.symm⟩
      | exn e =>
        simp [h1, h2, hf] at hr
        exact Or.inr hr.symm
      | unmodelled =>
        simp [h1, h2, hf] at hr

/-- C8 counterexample.  The token list `--format \x7bmissing\x7d` is
accepted by the parser, yet the run writes zero lines to standard
output and exits 1, not 0. -/
theorem C8_counterexample :
    parseArgs ["--format", "\x7bmissing\x7d"] =
      .ok ⟨"Friend", "\x7bmissing\x7d", false, false, false⟩ ∧
    program ["--format", "\x7bmissing\x7d"] = some (.lines [] .traceback 1) ∧
    ([] : List String).length ≠ 1 ∧ (1 : Nat) ≠ 0 := by decide

/-- C8 witness: the amended theorem applied to the accepted list
`--version` and its outcome. -/
theorem C8_witness :
    (∃ s, Outcome.lines [versionText] StdErrKind.quiet 0 = .lines [s] .quiet 0) ∨
      Outcome.lines [versionText] StdErrKind.quiet 0 = .lines [] .traceback 1 :=
  C8_accepted_single_line_or_traceback ["--version"]
    ⟨"Friend", "Hello, \x7bname\x7d!", false, false, true⟩
    (.lines [versionText] .quiet 0) (by decide) (by decide)

/-- C9.  The program is deterministic: the big-step relation `Exec`
(one constructor per terminal branch of the source) characterises
exactly the modelled outcomes of `program`, and two executions on the
same token list produce the same standard output and exit status.  The
model takes no input other than the token list — the script reads no
environment or hidden state. -/
theorem C9_deterministic_execution :
    (∀ (toks : List String) (r : Outcome), program toks = some r ↔ Exec toks r) ∧
    (∀ (toks : List String) (r₁ r₂ : Outcome), Exec toks r₁ → Exec toks r₂ → r₁ = r₂) := by
  have hiff : ∀ (toks : List String) (r : Outcome),
      program toks = some r ↔ Exec toks r := by
    intro toks r
    constructor
    · intro h
      cases hp : parseArgs toks with
      | ok a =>
        simp only [program, hp] at h
        unfold runArgs at h
        by_cases h1 : a.summary = true
        · simp [h1] at h
          rw [← h]
          exact Exec.summaryB toks a hp h1
        · by_cases h2 : a.version = true
          · simp [h1, h2] at h
            rw [← h]
            exact Exec.versionB toks a hp (by simpa using h1) h2
          · cases hf : pyFormat a.format a.name with
            | ok g =>
              simp [h1, h2, hf] at h
              rw [← h]
              exact Exec.greet toks a g hp (by simpa using h1) (by simpa using h2) hf
            | exn e =>
              simp [h1, h2, hf] at h
              rw [← h]
              exact Exec.greetExn toks a e hp (by simpa using h1) (by simpa using h2) hf
            | unmodelled => simp [h1, h2, hf] at h
      | usageError =>
        simp only [program, hp, Option.some.injEq] at h
        rw [← h]
        exact Exec.usage toks hp
      | help =>
        simp only [program, hp, Option.some.injEq] at h
        rw [← h]
        exact Exec.helpB toks hp
      | unmodelled => simp [program, hp] at h
    · intro h
      cases h with
      | summaryB a hp h1 => simp [program, hp, runArgs, h1]
      | versionB a hp h1 h2 => simp [program, hp, runArgs, h1, h2]
      | greet a g hp h1 h2 hf => simp [program, hp, runArgs, h1, h2, hf]
      | greetExn a e hp h1 h2 hf => simp [program, hp, runArgs, h1, h2, hf]
      | usage hp => simp [program, hp]
      | helpB hp => simp [program, hp]
  refine ⟨hiff, ?_⟩
  intro toks r₁ r₂ h₁ h₂
  have e₁ := (hiff toks r₁).mpr h₁
  have e₂ := (hiff toks r₂).mpr h₂
  rw [e₁] at e₂
  exact Option.some.inj e₂

/-- C9 witness: the characterisation applied to the empty token list. -/
theorem C9_witness : Exec [] (.lines ["Hello, Friend!"] .quiet 0) :=
  (C9_deterministic_execution.1 [] (.lines ["Hello, Friend!"] .quiet 0)).mp (by decide)

/-- C10 (amended).  In the greeting branch, a format consisting of a
well-formed prefix followed by a replacement field whose plain field
name is not `name` (e.g. `\x7bother\x7d`, `\x7b\x7d`, `\x7b0\x7d`), or
by an unmatched `\x7b`, makes `str.format` raise an uncaught exception:
the process exits 1 with a traceback on standard error — not the
parser's usage error — and prints nothing to standard output.  The
original claim covered every placeholder not exactly `\x7bname\x7d`,
but e.g. `\x7bname!s\x7d` succeeds (see the counterexample). -/
theorem C10_bad_field_uncaught_exception :
    (∀ (nm : String) (p f rest : List Char) (up : Bool),
      NameOnlyFmt p → (∀ c ∈ f, plainFieldChar c) → f ≠ ['n', 'a', 'm', 'e'] →
      ∃ e : PyErr, pyFormat ⟨p ++ '\x7b' :: (f ++ '\x7d' :: rest)⟩ nm = .exn e ∧
        runArgs ⟨nm, ⟨p ++ '\x7b' :: (f ++ '\x7d' :: rest)⟩, up, false, false⟩ =
          some (.lines [] .traceback 1)) ∧
    (∀ (nm : String) (p : List Char) (up : Bool), NameOnlyFmt p →
      pyFormat ⟨p ++ ['\x7b']⟩ nm = .exn .valueError ∧
      runArgs ⟨nm, ⟨p ++ ['\x7b']⟩, up, false, false⟩ =
        some (.lines [] .traceback 1)) := by
  constructor
  · intro nm p f rest up hp hf hne
    obtain ⟨e, he⟩ := scan_badfield nm.data rest f hf hne
    have hfmt : pyFormat ⟨p ++ '\x7b' :: (f ++ '\x7d' :: rest)⟩ nm = .exn e := by
      show scanAux nm.data .lit (p ++ '\x7b' :: (f ++ '\x7d' :: rest)) = .exn e
      rw [scan_nameOnly_append hp nm.data ('\x7b' :: (f ++ '\x7d' :: rest)), he]
      rfl
    exact ⟨e, hfmt, by simp [runArgs, hfmt]⟩
  · intro nm p up hp
    have hfmt : pyFormat ⟨p ++ ['\x7b']⟩ nm = .exn .valueError := by
      show scanAux nm.data .lit (p ++ ['\x7b']) = .exn .valueError
      exact scan_unmatched hp nm.data
    exact ⟨hfmt, by simp [runArgs, hfmt]⟩

/-- C10 counterexample.  The format `\x7bname!s\x7d` is a placeholder
whose syntax is not exactly `\x7bname\x7d`, yet the substitution
succeeds and the program prints the name and exits 0 — no exception,
no traceback. -/
theorem C10_counterexample :
    runArgs ⟨"Friend", "\x7bname!s\x7d", false, false, false⟩ =
      some (.lines ["Friend"] .quiet 0) ∧
    Outcome.lines ["Friend"] StdErrKind.quiet 0 ≠ .lines [] .traceback 1 ∧
    Outcome.exitCode (.lines ["Friend"] StdErrKind.quiet 0) = 0 := by decide

/-- C10 witness: the amended theorem applied to the bad field `zap`
with an empty prefix. -/
theorem C10_witness :
    ∃ e : PyErr,
      pyFormat ⟨([] : List Char) ++ '\x7b' :: (['z', 'a', 'p'] ++ '\x7d' :: [])⟩
        "Friend" = .exn e ∧
      runArgs ⟨"Friend",
          ⟨([] : List Char) ++ '\x7b' :: (['z', 'a', 'p'] ++ '\x7d' :: [])⟩,
          false, false, false⟩ =
        some (.lines [] .traceback 1) :=
  C10_bad_field_uncaught_exception.1 "Friend" [] ['z', 'a', 'p'] [] false
    NameOnlyFmt.nil (by decide) (by decide)
